import Mathlib

/-!
Shallow embedding of the dataset partition-and-corruption notebook of the
methane-uptake competition repository.

The notebook is a linear pandas/numpy script: it reads `data/dataset.csv`,
drops the unnamed index column, the categorical feature columns and the
alternate target columns, adds an `id` column equal to the row index, carves
out a 100-row held-out set (the top-target row, five sampled rows of the
rows ranked 6th to 15th by target, and 94 random further rows), writes
`solution.csv`, `test.csv` and `sample_submission.csv`, drops the held-out
rows, runs assertion checks, injects NaN markers into randomly chosen
training rows, and finally writes `train.csv`.

Modelling conventions:
* a table is a list of typed columns plus rows carrying a pandas row label
  and one cell per column;
* float64 data values are modelled as `Int` (their exact numeric type is
  irrelevant to every claim; only ordering and equality matter);
* the numpy global random state is an abstract stream of naturals (`Rng`);
  each primitive random operation (`np.random.choice` without replacement,
  `np.random.binomial`, `np.random.uniform`, `DataFrame.sample`) consumes
  values of the stream and is modelled by an executable function of it;
* `np.random.binomial (n, p)` is modelled as an arbitrary stream-determined
  outcome in `{0, ..., n}` (the support of the distribution); the success
  probability only shapes likelihoods, which the embedding does not track;
* `list(set(...))` over column names returns the set's elements in an
  iteration order that Python does not fix across processes (string hash
  randomization); the pipeline therefore takes the reordering applied to
  the canonical column-name list as an explicit extra input `so`, about
  which theorems only assume that it permutes its argument;
* a fallible pandas/numpy step (`KeyError` on a missing column or row
  label, `ValueError` on sampling more elements than a population holds)
  is modelled with `Option`;
* file writes are modelled by accumulating `(filename, table)` pairs in the
  order the script issues them.
-/

set_option maxRecDepth 8000

/-- Column data types as declared/inferred by pandas. -/
inductive Dtype
  | float64
  | int64
  | object
deriving DecidableEq, Repr

/-- A table cell: a numeric value, a string, or the missing-value marker. -/
inductive Cell
  | num (x : Int)
  | str (s : String)
  | nan
deriving DecidableEq, Repr

/-- A column declaration: name and dtype. -/
structure Col where
  name : String
  dtype : Dtype
deriving DecidableEq, Repr

/-- A pandas DataFrame: typed columns, and rows each carrying its index
label and one cell per column (in column order). -/
structure DataFrame where
  cols : List Col
  rows : List (Nat × List Cell)
deriving DecidableEq, Repr

def DataFrame.colNames (df : DataFrame) : List String :=
  df.cols.map (fun c => c.name)

def DataFrame.index (df : DataFrame) : List Nat :=
  df.rows.map (fun r => r.1)

/-- Look up the cell of column `n` in a row given as parallel column/cell
lists (first matching column, as pandas label lookup). -/
def getCellAux : List Col → List Cell → String → Option Cell
  | c :: cs, x :: xs, n => if c.name = n then some x else getCellAux cs xs n
  | _, _, _ => none

/-- Cell of row labelled `idx` in column `n`. -/
def DataFrame.getCell (df : DataFrame) (idx : Nat) (n : String) : Option Cell :=
  match df.rows.find? (fun r => r.1 == idx) with
  | some r => getCellAux df.cols r.2 n
  | none => none

/-- The numpy global random state, abstracted to a stream of naturals
(an exhausted stream keeps yielding 0). -/
abbrev Rng := List Nat

def rngNext (r : Rng) : Nat × Rng :=
  match r with
  | [] => (0, [])
  | v :: vs => (v, vs)

/-- Modelled `np.random.choice(pool, size=k, replace=False)` (also pandas
`DataFrame.sample(k)`): draws `k` distinct positions of `pool`; raises
(`none`) when the pool holds fewer than `k` elements. -/
def sampleWoR {α : Type} : Nat → List α → Rng → Option (List α × Rng)
  | 0, _, rng => some ([], rng)
  | _ + 1, [], _ => none
  | k + 1, a :: as, rng =>
    match sampleWoR k ((a :: as).eraseIdx ((rngNext rng).1 % (a :: as).length)) (rngNext rng).2 with
    | none => none
    | some (xs, r) =>
      some ((a :: as).getD ((rngNext rng).1 % (a :: as).length) a :: xs, r)

/-- Modelled `np.random.binomial(n, p)`: a stream-determined outcome in the
support `{0, ..., n}` of the distribution. -/
def binomialDraw (n : Nat) (rng : Rng) : Nat × Rng :=
  let p := rngNext rng
  (min p.1 n, p.2)

/-- Modelled `np.random.uniform(lo, hi)`: a stream-determined value of the
interval (degenerate when the interval is empty). -/
def uniformDraw (lo hi : Int) (rng : Rng) : Int × Rng :=
  let p := rngNext rng
  (if hi ≤ lo then lo else lo + (Int.ofNat p.1) % (hi - lo), p.2)

/-- Modelled `np.random.uniform(lo, hi, n)`. -/
def uniformList (lo hi : Int) : Nat → Rng → List Int × Rng
  | 0, rng => ([], rng)
  | n + 1, rng =>
    let p := uniformDraw lo hi rng
    let q := uniformList lo hi n p.2
    (p.1 :: q.1, q.2)

/-- The active target column of the task. -/
def targetCol : String := "highUptake_mol"

/-- Rows whose cell in column `t` is numeric, as (label, value) pairs, in
row order; pandas `nlargest` ignores rows with a missing sort key. -/
def targetPairs (df : DataFrame) (t : String) : List (Nat × Int) :=
  df.rows.filterMap (fun r =>
    match getCellAux df.cols r.2 t with
    | some (Cell.num x) => some (r.1, x)
    | _ => none)

/-- Descending order on (label, value) pairs by value; insertion sort with
this relation is stable, matching `nlargest`'s `keep='first'`. -/
def descR (p q : Nat × Int) : Prop := q.2 ≤ p.2

instance : DecidableRel descR := fun p q => Int.decLe q.2 p.2

instance : IsTotal (Nat × Int) descR :=
  ⟨fun p q => le_total q.2 p.2⟩

instance : IsTrans (Nat × Int) descR :=
  ⟨fun _ _ _ h h' => le_trans h' h⟩

/-- Modelled `df.nlargest(k, t).index`: labels of the `k` rows with the
largest values in column `t`, ties resolved towards earlier rows. -/
def nlargestIdx (df : DataFrame) (k : Nat) (t : String) : List Nat :=
  ((List.insertionSort descR (targetPairs df t)).take k).map (fun p => p.1)

/-- Cells of a row after removing the columns listed in `names` (parallel
recursion over the column/cell lists). -/
def keepCells : List Col → List String → List Cell → List Cell
  | c :: cs, names, x :: xs =>
    if names.contains c.name then keepCells cs names xs
    else x :: keepCells cs names xs
  | _, _, _ => []

/-- Modelled `df.drop(names, axis=1)`: raises (`none`) when a listed column
is absent. -/
def dropCols (df : DataFrame) (names : List String) : Option DataFrame :=
  if names.all (fun n => df.cols.any (fun c => c.name == n)) then
    some { cols := df.cols.filter (fun c => !(names.contains c.name)),
           rows := df.rows.map (fun r => (r.1, keepCells df.cols names r.2)) }
  else none

/-- Overwrite the cell of the column named `id` with the row label
(parallel recursion, used when an `id` column already exists). -/
def setIdCells : List Col → List Cell → Int → List Cell
  | c :: cs, x :: xs, v =>
    (if c.name = "id" then Cell.num v else x) :: setIdCells cs xs v
  | _, _, _ => []

/-- Modelled `df["id"] = df.index`: appends an int64 `id` column holding
the row label (overwriting it in place if a column `id` already exists). -/
def addIdCol (df : DataFrame) : DataFrame :=
  if df.cols.any (fun c => c.name == "id") then
    { cols := df.cols.map (fun c => if c.name = "id" then ⟨c.name, Dtype.int64⟩ else c),
      rows := df.rows.map (fun r => (r.1, setIdCells df.cols r.2 (Int.ofNat r.1))) }
  else
    { cols := df.cols ++ [⟨"id", Dtype.int64⟩],
      rows := df.rows.map (fun r => (r.1, r.2 ++ [Cell.num (Int.ofNat r.1)])) }

/-- Modelled `df.loc[idxs]`: the rows labelled by `idxs`, in that order;
raises (`none`) when a label is absent. -/
def locRows (df : DataFrame) (idxs : List Nat) : Option DataFrame :=
  if idxs.all (fun i => df.rows.any (fun r => r.1 == i)) then
    some { cols := df.cols,
           rows := idxs.filterMap (fun i => df.rows.find? (fun r => r.1 == i)) }
  else none

/-- Modelled `df[names]` column projection; raises (`none`) when a listed
column is absent. -/
def projectCols (df : DataFrame) (names : List String) : Option DataFrame :=
  if names.all (fun n => df.cols.any (fun c => c.name == n)) then
    some { cols := names.filterMap (fun n => df.cols.find? (fun c => c.name == n)),
           rows := df.rows.map (fun r =>
             (r.1, names.map (fun n => (getCellAux df.cols r.2 n).getD Cell.nan))) }
  else none

/-- Modelled `df[c] = v` for a constant `v` on a table not holding `c`. -/
def addConstCol (df : DataFrame) (c : Col) (v : Cell) : DataFrame :=
  { cols := df.cols ++ [c], rows := df.rows.map (fun r => (r.1, r.2 ++ [v])) }

/-- Modelled `df[c] = vals` for a per-row array `vals` on a table not
holding `c`. -/
def addNumCol (df : DataFrame) (c : Col) (vals : List Int) : DataFrame :=
  { cols := df.cols ++ [c],
    rows := (df.rows.zip vals).map (fun p => (p.1.1, p.1.2 ++ [Cell.num p.2])) }

/-- Modelled `df.drop(index=idxs)`: removes the rows labelled by `idxs`,
keeping the remaining rows in order; raises (`none`) on an absent label. -/
def dropRowsChecked (df : DataFrame) (idxs : List Nat) : Option DataFrame :=
  if idxs.all (fun i => df.rows.any (fun r => r.1 == i)) then
    some { cols := df.cols,
           rows := df.rows.filter (fun r => !(idxs.contains r.1)) }
  else none

/-- Cells of a row after assigning the missing marker to every column
whose name is listed in `names` (parallel recursion; cells beyond the
declared columns are kept unchanged). -/
def setNanCells : List Col → List String → List Cell → List Cell
  | c :: cs, names, x :: xs =>
    (if names.contains c.name then Cell.nan else x) :: setNanCells cs names xs
  | _, _, xs => xs

/-- Modelled `df.loc[idx, names] = np.nan`. -/
def setNan (df : DataFrame) (idx : Nat) (names : List String) : DataFrame :=
  { cols := df.cols,
    rows := df.rows.map (fun r =>
      if r.1 = idx then (r.1, setNanCells df.cols names r.2) else r) }

/-- Canonical listing of
`set(df.columns).difference(df.select_dtypes(exclude=["float64"]).columns)`:
the names of the float64-dtype columns, in column order.  The script keeps
this set as a Python `list(set(...))`, whose iteration order the pipeline
receives as the explicit reordering input `so`. -/
def float64Columns (df : DataFrame) : List String :=
  (df.cols.filter (fun c => c.dtype == Dtype.float64)).map (fun c => c.name)

def targetValsOnly (df : DataFrame) : List Int :=
  (targetPairs df targetCol).map (fun p => p.2)

/-- Modelled `df["highUptake_mol"].min()` (0 on an all-missing column,
a case no claim exercises). -/
def minTarget (df : DataFrame) : Int :=
  match targetValsOnly df with
  | [] => 0
  | x :: xs => xs.foldl min x

/-- Modelled `df["highUptake_mol"].max()` (0 on an all-missing column,
a case no claim exercises). -/
def maxTarget (df : DataFrame) : Int :=
  match targetValsOnly df with
  | [] => 0
  | x :: xs => xs.foldl max x

/-- The values of the `id` column, in row order. -/
def idColVals (df : DataFrame) : List (Option Cell) :=
  df.rows.map (fun r => getCellAux df.cols r.2 "id")

/-- The notebook's post-split `assert` block: no data loss, unique ids on
both sides, and disjoint id sets. -/
def splitChecks (dfLen : Nat) (dfTrain dfTest : DataFrame) : Bool :=
  (dfTrain.rows.length + dfTest.rows.length == dfLen)
    && decide (idColVals dfTrain).Nodup
    && decide (idColVals dfTest).Nodup
    && (idColVals dfTrain).all (fun v => !((idColVals dfTest).contains v))

def unnamedZero : String := "Unnamed: 0"

def categoricalFeatures : List String :=
  ["bond_type", "dimensions", "linkerA", "linkerB", "net",
   "chemical_formula", "vertices", "edges", "genus"]

def targetVariables : List String :=
  ["heatDesorptionHigh", "heatDesorptionHigh_Error", "highUptake_molec",
   "highUptakeError_molec", "highUptakeError_mol", "heatDesorptionLow",
   "heatDesorptionLow_error", "lowUptake_molec", "lowUptakeError_molec",
   "lowUptake_mol", "lowUptakeError_mol", "surface_area", "del_capacity"]

/-- The cleaning cells of the notebook: drop the unnamed index column, the
categorical feature columns, then the alternate target columns. -/
def cleanStage (raw : DataFrame) : Option DataFrame :=
  match dropCols raw [unnamedZero] with
  | none => none
  | some d1 =>
    match dropCols d1 categoricalFeatures with
    | none => none
    | some d2 => dropCols d2 targetVariables

/-- The splitting cell of the notebook, after `df["id"] = df.index` (the
argument `df` is the cleaned table with its `id` column).  Returns the
files written so far (in write order) and, on success, the remaining
training table, the held-out table and the advanced random state. -/
def splitStage (df : DataFrame) (rng0 : Rng) :
    List (String × DataFrame) × Option (DataFrame × DataFrame × Rng) :=
  if df.cols.any (fun c => c.name == targetCol) then
    let bestRow := nlargestIdx df 1 targetCol
    let pool := (nlargestIdx df 15 targetCol).drop 5
    match sampleWoR 5 pool rng0 with
    | none => ([], none)
    | some (greatRows, rng1) =>
      let bestRows := bestRow ++ greatRows
      let remaining :=
        List.insertionSort (· ≤ ·) (df.index.filter (fun i => !(bestRows.contains i)))
      match sampleWoR (100 - bestRows.length) remaining rng1 with
      | none => ([], none)
      | some (additional, rng2) =>
        let combined := bestRows ++ additional
        match locRows df combined with
        | none => ([], none)
        | some dfTest =>
          match projectCols dfTest ["id", targetCol] with
          | none => ([], none)
          | some sol0 =>
            let solutionDf := addConstCol sol0 ⟨"Usage", Dtype.object⟩ (Cell.str "Public")
            match dropCols dfTest [targetCol] with
            | none => ([("solution.csv", solutionDf)], none)
            | some testDf =>
              match projectCols dfTest ["id"] with
              | none => ([("solution.csv", solutionDf), ("test.csv", testDf)], none)
              | some sub0 =>
                let uv := uniformList (minTarget df) (maxTarget df) dfTest.rows.length rng2
                let subDf := addNumCol sub0 ⟨targetCol, Dtype.float64⟩ uv.1
                match dropRowsChecked df combined with
                | none =>
                  ([("solution.csv", solutionDf), ("test.csv", testDf),
                    ("sample_submission.csv", subDf)], none)
                | some dfTrain =>
                  ([("solution.csv", solutionDf), ("test.csv", testDf),
                    ("sample_submission.csv", subDf)], some (dfTrain, dfTest, uv.2))
  else ([], none)

/-- The per-row NaN count of the corruption loop:
`np.random.binomial(len(df.columns), 0.1) + 1`.  The number-of-trials
parameter is the total column count of the training table. -/
def numNansOf (df : DataFrame) (rng : Rng) : Nat × Rng :=
  let p := binomialDraw df.cols.length rng
  (p.1 + 1, p.2)

/-- One iteration of the corruption loop: draw the NaN count, draw that
many distinct column names of the eligible list `f64`, blank those cells
of row `idx`. -/
def corruptRow (f64 : List String) (df : DataFrame) (idx : Nat) (rng : Rng) :
    Option (DataFrame × Rng) :=
  match sampleWoR (numNansOf df rng).1 f64 (numNansOf df rng).2 with
  | none => none
  | some (names, rng2) => some (setNan df idx names, rng2)

/-- The corruption loop over the selected row labels. -/
def corruptLoop (f64 : List String) : List Nat → DataFrame → Rng → Option (DataFrame × Rng)
  | [], df, rng => some (df, rng)
  | i :: rest, df, rng =>
    match corruptRow f64 df i rng with
    | none => none
    | some (q, rng') => corruptLoop f64 rest q rng'

/-- The corruption cell of the notebook: list the float64 columns (in the
process-dependent set order `so`), select `int(0.125 * len(df))` distinct
rows, and run the per-row loop. -/
def corruptStage (df : DataFrame) (rng : Rng) (so : List String → List String) :
    Option (DataFrame × Rng) :=
  match sampleWoR (df.rows.length / 8) df.index rng with
  | none => none
  | some (nanIdx, rng1) => corruptLoop (so (float64Columns df)) nanIdx df rng1

/-- Outcome of a whole notebook run: the files written, in write order,
and whether the run reached the end without raising. -/
structure RunResult where
  written : List (String × DataFrame)
  ok : Bool
deriving DecidableEq, Repr

/-- The whole notebook, as a function of the raw table, the seeded random
stream, and the process-dependent iteration order `so` of the Python set
of float64 column names. -/
def runPipeline (raw : DataFrame) (rng : Rng) (so : List String → List String) : RunResult :=
  match cleanStage raw with
  | none => ⟨[], false⟩
  | some dfC =>
    match splitStage (addIdCol dfC) rng with
    | (files, res) =>
      match res with
      | none => ⟨files, false⟩
      | some (dfTrain, dfTest, rng2) =>
        if splitChecks (addIdCol dfC).rows.length dfTrain dfTest then
          match corruptStage dfTrain rng2 so with
          | none => ⟨files, false⟩
          | some (q, _) => ⟨files ++ [("train.csv", q)], true⟩
        else ⟨files, false⟩

/-! Concrete tables used by counterexamples and witnesses. -/

/-- A raw table with the full input schema: the unnamed index column, the
nine categorical features, the thirteen alternate targets, one float
feature `x` and the target column. -/
def rawCols : List Col :=
  [⟨unnamedZero, Dtype.int64⟩] ++ categoricalFeatures.map (fun n => ⟨n, Dtype.object⟩)
  ++ targetVariables.map (fun n => ⟨n, Dtype.float64⟩)
  ++ [⟨"x", Dtype.float64⟩, ⟨targetCol, Dtype.float64⟩]

/-- Row `i` of the concrete raw table: distinct target values `i`. -/
def rawRow (i : Nat) : Nat × List Cell :=
  (i, [Cell.num (Int.ofNat i)] ++ categoricalFeatures.map (fun _ => Cell.str "c")
   ++ targetVariables.map (fun _ => Cell.num 0)
   ++ [Cell.num (Int.ofNat i), Cell.num (Int.ofNat i)])

/-- A 108-row raw table (8 training rows remain after the split). -/
def rawB : DataFrame := ⟨rawCols, (List.range 108).map rawRow⟩

/-- The cleaned form of `rawB`: the float feature `x` and the target. -/
def cleanW : DataFrame :=
  ⟨[⟨"x", Dtype.float64⟩, ⟨targetCol, Dtype.float64⟩],
   (List.range 108).map (fun i => (i, [Cell.num (Int.ofNat i), Cell.num (Int.ofNat i)]))⟩

/-- The cleaned table with its `id` column. -/
def dfW : DataFrame := addIdCol cleanW

def colsW : List Col :=
  [⟨"x", Dtype.float64⟩, ⟨targetCol, Dtype.float64⟩, ⟨"id", Dtype.int64⟩]

/-- The training side of `splitStage dfW []` (labels 94-97 and 103-106). -/
def trainW : DataFrame :=
  ⟨colsW, ([94, 95, 96, 97, 103, 104, 105, 106] : List Nat).map
    (fun i => (i, [Cell.num (Int.ofNat i), Cell.num (Int.ofNat i), Cell.num (Int.ofNat i)]))⟩

/-- The held-out side of `splitStage dfW []`: the best row 107, the five
sampled great rows, then the 94 fillers. -/
def testW : DataFrame :=
  ⟨colsW, (([107, 102, 101, 100, 99, 98] : List Nat) ++ List.range 94).map
    (fun i => (i, [Cell.num (Int.ofNat i), Cell.num (Int.ofNat i), Cell.num (Int.ofNat i)]))⟩

/-- A random stream whose 201st value forces an oversized binomial draw in
the corruption loop of a `rawB` run (the split consumes 199 values and the
row selection one more). -/
def rngB : Rng := List.replicate 200 0 ++ [5]

/-- The result of corrupting `trainW` with the stream `[0, 1, 0, 0]` and
the identity set order: row 94 is selected, the draw asks for two columns,
and both float64 columns — the feature `x` and the target — are blanked. -/
def corruptW : DataFrame :=
  ⟨colsW, (94, [Cell.nan, Cell.nan, Cell.num 94]) ::
    ([95, 96, 97, 103, 104, 105, 106] : List Nat).map
      (fun i => (i, [Cell.num (Int.ofNat i), Cell.num (Int.ofNat i), Cell.num (Int.ofNat i)]))⟩

/-- The result of corrupting `trainW` with the exhausted stream and the
identity set order: row 94 is selected, one column is drawn, and the
feature `x` is blanked. -/
def corruptZ : DataFrame :=
  ⟨colsW, (94, [Cell.nan, Cell.num 94, Cell.num 94]) ::
    ([95, 96, 97, 103, 104, 105, 106] : List Nat).map
      (fun i => (i, [Cell.num (Int.ofNat i), Cell.num (Int.ofNat i), Cell.num (Int.ofNat i)]))⟩

/-- A raw table missing the whole expected schema: cleaning raises before
anything is written. -/
def rawEmpty : DataFrame := ⟨[], []⟩

/-! Helper lemmas about the random sampler. -/

theorem getD_not_mem_eraseIdx {α : Type} :
    ∀ (l : List α) (i : Nat) (d : α), i < l.length → l.Nodup →
      l.getD i d ∉ l.eraseIdx i
  | [], i, d, h, _ => by simp at h
  | a :: as, 0, d, _, hnd => by
    simpa using (List.nodup_cons.mp hnd).1
  | a :: as, i + 1, d, h, hnd => by
    have hi : i < as.length := Nat.lt_of_succ_lt_succ h
    have hrec := getD_not_mem_eraseIdx as i d hi (List.nodup_cons.mp hnd).2
    simp only [List.getD_cons_succ, List.eraseIdx_cons_succ, List.mem_cons]
    rintro (h1 | h2)
    · have hmem : as.getD i d ∈ as := by
        rw [List.getD_eq_getElem as d hi]
        exact List.getElem_mem hi
      rw [h1] at hmem
      exact (List.nodup_cons.mp hnd).1 hmem
    · exact hrec h2

theorem sampleWoR_some_facts {α : Type} :
    ∀ (k : Nat) (pool : List α) (rng : Rng) (xs : List α) (r : Rng),
      sampleWoR k pool rng = some (xs, r) →
      xs.length = k ∧ (∀ x ∈ xs, x ∈ pool) ∧ (pool.Nodup → xs.Nodup)
  | 0, pool, rng, xs, r, h => by
    simp only [sampleWoR, Option.some.injEq, Prod.mk.injEq] at h
    refine ⟨?_, ?_, ?_⟩ <;> simp [← h.1]
  | k + 1, [], rng, xs, r, h => by
    simp [sampleWoR] at h
  | k + 1, a :: as, rng, xs, r, h => by
    rw [sampleWoR] at h
    cases hs : sampleWoR k ((a :: as).eraseIdx ((rngNext rng).1 % (a :: as).length))
        (rngNext rng).2 with
    | none => rw [hs] at h; exact absurd h (by simp)
    | some q =>
      obtain ⟨ys, r'⟩ := q
      rw [hs] at h
      simp only [Option.some.injEq, Prod.mk.injEq] at h
      obtain ⟨hxs, hr⟩ := h
      obtain ⟨hlen, hsub, hnd⟩ := sampleWoR_some_facts k _ _ ys r' hs
      have hilt : (rngNext rng).1 % (a :: as).length < (a :: as).length :=
        Nat.mod_lt _ (by simp)
      have hpick : (a :: as).getD ((rngNext rng).1 % (a :: as).length) a ∈ a :: as := by
        rw [List.getD_eq_getElem _ a hilt]
        exact List.getElem_mem hilt
      refine ⟨?_, ?_, ?_⟩
      · rw [← hxs]; simp [hlen]
      · rw [← hxs]
        intro x hx
        rcases List.mem_cons.mp hx with h1 | h2
        · rw [h1]; exact hpick
        · exact List.mem_of_mem_eraseIdx (hsub x h2)
      · intro hnd'
        rw [← hxs]
        have hndE := List.Nodup.sublist
          (List.eraseIdx_sublist (a :: as) ((rngNext rng).1 % (a :: as).length)) hnd'
        refine List.nodup_cons.mpr ⟨?_, hnd hndE⟩
        intro hin
        exact getD_not_mem_eraseIdx (a :: as) _ a hilt hnd' (hsub _ hin)

theorem sampleWoR_none_of_lt {α : Type} :
    ∀ (k : Nat) (pool : List α) (rng : Rng), pool.length < k →
      sampleWoR k pool rng = none
  | 0, _, _, h => absurd h (Nat.not_lt_zero _)
  | _ + 1, [], _, _ => rfl
  | k + 1, a :: as, rng, h => by
    rw [sampleWoR]
    have hilt : (rngNext rng).1 % (a :: as).length < (a :: as).length :=
      Nat.mod_lt _ (by simp)
    have : ((a :: as).eraseIdx ((rngNext rng).1 % (a :: as).length)).length < k := by
      rw [List.length_eraseIdx_of_lt hilt]
      simpa using Nat.lt_of_succ_lt_succ h
    rw [sampleWoR_none_of_lt k _ (rngNext rng).2 this]

/-! Helper lemmas about cells and per-row operations. -/

theorem contains_eq_decide_mem {α : Type} [BEq α] [LawfulBEq α] (l : List α) (a : α) :
    l.contains a = decide (a ∈ l) := by
  simp [List.contains]

theorem setNanCells_length :
    ∀ (cols : List Col) (names : List String) (xs : List Cell),
      (setNanCells cols names xs).length = xs.length
  | [], _, _ => rfl
  | _ :: _, _, [] => rfl
  | c :: cs, names, x :: xs => by
    simp only [setNanCells, List.length_cons, setNanCells_length cs names xs]

theorem getCellAux_setNanCells_not_mem :
    ∀ (cols : List Col) (names : List String) (xs : List Cell) (n : String),
      n ∉ names →
      getCellAux cols (setNanCells cols names xs) n = getCellAux cols xs n
  | [], _, xs, n, _ => rfl
  | _ :: _, _, [], n, _ => rfl
  | c :: cs, names, x :: xs, n, h => by
    simp only [setNanCells, getCellAux]
    by_cases hc : c.name = n
    · have hcf : names.contains c.name = false := by
        rw [hc, contains_eq_decide_mem]
        exact decide_eq_false h
      rw [hcf, if_pos hc, if_pos hc]
      simp
    · rw [if_neg hc, if_neg hc]
      exact getCellAux_setNanCells_not_mem cs names xs n h

theorem nan_mem_setNanCells :
    ∀ (cols : List Col) (names : List String) (xs : List Cell),
      xs.length = cols.length →
      (∃ c ∈ cols, c.name ∈ names) →
      Cell.nan ∈ setNanCells cols names xs
  | [], _, _, _, hex => by simp at hex
  | _ :: _, _, [], hlen, _ => by simp at hlen
  | c :: cs, names, x :: xs, hlen, hex => by
    simp only [setNanCells, List.mem_cons]
    by_cases hc : c.name ∈ names
    · left
      have : names.contains c.name = true := by
        rw [contains_eq_decide_mem]; exact decide_eq_true hc
      rw [this]; simp
    · obtain ⟨c', hc', hn'⟩ := hex
      rcases List.mem_cons.mp hc' with h1 | h2
      · exact absurd (h1 ▸ hn') hc
      · right
        exact nan_mem_setNanCells cs names xs (by simpa using hlen) ⟨c', h2, hn'⟩

theorem nan_mem_setNanCells_of_mem :
    ∀ (cols : List Col) (names : List String) (xs : List Cell),
      Cell.nan ∈ xs → Cell.nan ∈ setNanCells cols names xs
  | [], _, _, h => h
  | _ :: _, _, [], h => h
  | c :: cs, names, x :: xs, h => by
    simp only [setNanCells, List.mem_cons]
    rcases List.mem_cons.mp h with h1 | h2
    · left
      by_cases hc : names.contains c.name
      · rw [if_pos hc]
      · rw [if_neg hc]; exact h1
    · right
      exact nan_mem_setNanCells_of_mem cs names xs h2

theorem addIdCol_index (df : DataFrame) : (addIdCol df).index = df.index := by
  unfold addIdCol
  split <;> simp [DataFrame.index]

theorem addIdCol_cols_of_not_mem (df : DataFrame) (h : "id" ∉ df.colNames) :
    (addIdCol df).cols = df.cols ++ [⟨"id", Dtype.int64⟩] := by
  simp only [DataFrame.colNames, List.mem_map, not_exists] at h
  have hcond : (df.cols.any (fun c => c.name == "id")) = false := by
    rw [List.any_eq_false]
    intro c hcmem
    simp only [beq_iff_eq]
    intro hcname
    exact h c ⟨hcmem, hcname⟩
  unfold addIdCol
  rw [hcond]
  simp

/-! Characterization of the corruption loop. -/

theorem setNan_cols (df : DataFrame) (idx : Nat) (names : List String) :
    (setNan df idx names).cols = df.cols := rfl

theorem setNan_rows (df : DataFrame) (idx : Nat) (names : List String) :
    (setNan df idx names).rows
      = df.rows.map (fun r => if r.1 = idx then (r.1, setNanCells df.cols names r.2) else r) :=
  rfl

theorem numNansOf_pos (df : DataFrame) (rng : Rng) : 1 ≤ (numNansOf df rng).1 :=
  Nat.succ_le_succ (Nat.zero_le _)

theorem corruptRow_some {f64 : List String} {df : DataFrame} {idx : Nat} {rng : Rng}
    {q : DataFrame × Rng} (h : corruptRow f64 df idx rng = some q) :
    ∃ names rng2,
      sampleWoR (numNansOf df rng).1 f64 (numNansOf df rng).2 = some (names, rng2) ∧
      q = (setNan df idx names, rng2) := by
  unfold corruptRow at h
  cases hs : sampleWoR (numNansOf df rng).1 f64 (numNansOf df rng).2 with
  | none => rw [hs] at h; cases h
  | some p =>
    obtain ⟨names, rng2⟩ := p
    rw [hs] at h
    simp only [Option.some.injEq] at h
    exact ⟨names, rng2, rfl, h.symm⟩

theorem corruptLoop_plan :
    ∀ (L : List Nat) (f64 : List String) (df : DataFrame) (rng : Rng)
      (q : DataFrame × Rng),
      L.Nodup →
      corruptLoop f64 L df rng = some q →
      q.1.cols = df.cols ∧
      ∃ plan : Nat → List String,
        (∀ j ∈ L, plan j ≠ [] ∧ ∀ n ∈ plan j, n ∈ f64) ∧
        q.1.rows = df.rows.map
          (fun r => if r.1 ∈ L then (r.1, setNanCells df.cols (plan r.1) r.2) else r)
  | [], f64, df, rng, q, _, h => by
    simp only [corruptLoop, Option.some.injEq] at h
    refine ⟨by rw [← h], fun _ => [], by simp, ?_⟩
    rw [← h]
    conv_lhs => rw [← List.map_id df.rows]
    exact (List.map_congr_left (fun r _ => by simp)).symm
  | i :: rest, f64, df, rng, q, hnd, h => by
    rw [corruptLoop] at h
    cases hc : corruptRow f64 df i rng with
    | none => rw [hc] at h; cases h
    | some p =>
      rw [hc] at h
      obtain ⟨df1, rng1⟩ := p
      obtain ⟨names, rng2, hs, hq⟩ := corruptRow_some hc
      obtain ⟨hdf1, hrng1⟩ : df1 = setNan df i names ∧ rng1 = rng2 := by
        constructor <;> simp [Prod.ext_iff] at hq <;> tauto
      obtain ⟨hlen, hsub, -⟩ := sampleWoR_some_facts _ _ _ _ _ hs
      have hne : names ≠ [] := by
        intro hnil
        have h1 := numNansOf_pos df rng
        rw [hnil] at hlen
        simp only [List.length_nil] at hlen
        omega
      have hindnd := List.nodup_cons.mp hnd
      obtain ⟨hcols, plan', hplan', hrows⟩ :=
        corruptLoop_plan rest f64 df1 rng1 q hindnd.2 h
      refine ⟨by rw [hcols, hdf1, setNan_cols], fun j => if j = i then names else plan' j,
        ?_, ?_⟩
      · intro j hj
        by_cases h1 : j = i
        · simp only [if_pos h1]
          exact ⟨hne, hsub⟩
        · have h2 : j ∈ rest := by
            rcases List.mem_cons.mp hj with hx | hx
            · exact absurd hx h1
            · exact hx
          simp only [if_neg h1]
          exact hplan' j h2
      · rw [hrows, hdf1, setNan_rows, setNan_cols, List.map_map]
        refine List.map_congr_left ?_
        intro r hr
        by_cases hri : r.1 = i
        · have hnotrest : r.1 ∉ rest := hri ▸ hindnd.1
          have hmem : r.1 ∈ i :: rest := by rw [hri]; exact List.mem_cons_self i rest
          simp only [Function.comp_apply, if_pos hri, if_neg hnotrest, if_pos hmem]
        · by_cases hrr : r.1 ∈ rest
          · have hmem : r.1 ∈ i :: rest := List.mem_cons_of_mem i hrr
            simp only [Function.comp_apply, if_neg hri, if_pos hrr, if_pos hmem]
          · have hmem : r.1 ∉ i :: rest := by
              intro hx
              rcases List.mem_cons.mp hx with h1 | h2
              · exact hri h1
              · exact hrr h2
            simp only [Function.comp_apply, if_neg hri, if_neg hrr, if_neg hmem]

/-! Lemmas about row lookup and the table operations. -/

theorem find?_fst_map {γ : Type} {f : (Nat × γ) → (Nat × γ)}
    (hf : ∀ r, (f r).1 = r.1) (idx : Nat) :
    ∀ l : List (Nat × γ),
      (l.map f).find? (fun r => r.1 == idx) = (l.find? (fun r => r.1 == idx)).map f
  | [] => rfl
  | r :: rs => by
    simp only [List.map_cons, List.find?]
    rw [hf r]
    cases hpa : (r.1 == idx) with
    | true => simp [hpa]
    | false =>
      simp only [hpa]
      exact find?_fst_map hf idx rs

theorem locRows_some {df : DataFrame} {idxs : List Nat} {d : DataFrame}
    (h : locRows df idxs = some d) :
    d.cols = df.cols ∧
    d.rows = idxs.filterMap (fun i => df.rows.find? (fun r => r.1 == i)) ∧
    ∀ i ∈ idxs, ∃ r ∈ df.rows, r.1 = i := by
  unfold locRows at h
  split at h
  case isTrue hc =>
    simp only [Option.some.injEq] at h
    refine ⟨by rw [← h], by rw [← h], ?_⟩
    intro i hi
    rw [List.all_eq_true] at hc
    have := hc i hi
    rw [List.any_eq_true] at this
    obtain ⟨r, hr, hbeq⟩ := this
    exact ⟨r, hr, by simpa using hbeq⟩
  case isFalse => cases h

theorem filterMap_find?_index {rows : List (Nat × List Cell)} :
    ∀ (idxs : List Nat), (∀ i ∈ idxs, ∃ r ∈ rows, r.1 = i) →
      (idxs.filterMap (fun i => rows.find? (fun r => r.1 == i))).map Prod.fst = idxs
  | [], _ => rfl
  | i :: rest, hall => by
    obtain ⟨r, hr, hri⟩ := hall i (List.mem_cons_self i rest)
    have hsome : (rows.find? (fun r => r.1 == i)).isSome := by
      rw [List.find?_isSome]
      exact ⟨r, hr, by simpa using hri⟩
    obtain ⟨r0, hr0⟩ := Option.isSome_iff_exists.mp hsome
    have hr0i : r0.1 = i := by simpa using List.find?_some hr0
    simp only [List.filterMap_cons, hr0, List.map_cons, hr0i]
    rw [filterMap_find?_index rest (fun j hj => hall j (List.mem_cons_of_mem i hj))]

theorem filterMap_find?_mem {rows : List (Nat × List Cell)} {idxs : List Nat} :
    ∀ r ∈ idxs.filterMap (fun i => rows.find? (fun r => r.1 == i)), r ∈ rows := by
  intro r hr
  rw [List.mem_filterMap] at hr
  obtain ⟨i, _, hfind⟩ := hr
  exact List.mem_of_find?_eq_some hfind

theorem dropRowsChecked_some {df : DataFrame} {idxs : List Nat} {d : DataFrame}
    (h : dropRowsChecked df idxs = some d) :
    d.cols = df.cols ∧ d.rows = df.rows.filter (fun r => !(idxs.contains r.1)) := by
  unfold dropRowsChecked at h
  split at h
  case isTrue => simp only [Option.some.injEq] at h; exact ⟨by rw [← h], by rw [← h]⟩
  case isFalse => cases h

theorem projectCols_some_index {df : DataFrame} {names : List String} {d : DataFrame}
    (h : projectCols df names = some d) : d.index = df.index := by
  unfold projectCols at h
  split at h
  case isTrue =>
    simp only [Option.some.injEq] at h
    rw [← h]
    simp [DataFrame.index]
  case isFalse => cases h

theorem addConstCol_index (df : DataFrame) (c : Col) (v : Cell) :
    (addConstCol df c v).index = df.index := by
  simp [addConstCol, DataFrame.index]

theorem zip_map_fst_aux {δ : Type} (f : (Nat × List Cell) × δ → List Cell) :
    ∀ (rows : List (Nat × List Cell)) (vals : List δ), rows.length ≤ vals.length →
      ((rows.zip vals).map (fun p => (p.1.1, f p))).map Prod.fst = rows.map Prod.fst
  | [], _, _ => rfl
  | r :: rs, [], h => by simp at h
  | r :: rs, v :: vs, h => by
    simp only [List.zip_cons_cons, List.map_cons]
    rw [zip_map_fst_aux f rs vs (Nat.le_of_succ_le_succ h)]

theorem addNumCol_index (df : DataFrame) (c : Col) (vals : List Int)
    (h : df.rows.length ≤ vals.length) : (addNumCol df c vals).index = df.index := by
  unfold addNumCol DataFrame.index
  exact zip_map_fst_aux _ df.rows vals h

theorem length_filter_mem {l S : List Nat} (hl : l.Nodup) (hS : S.Nodup)
    (hsub : ∀ x ∈ S, x ∈ l) :
    (l.filter (fun x => decide (x ∈ S))).length = S.length := by
  have hperm : List.Perm (l.filter (fun x => decide (x ∈ S))) S := by
    rw [List.perm_ext_iff_of_nodup (List.Nodup.filter _ hl) hS]
    intro a
    simp only [List.mem_filter, decide_eq_true_eq]
    exact ⟨fun hx => hx.2, fun hx => ⟨hsub a hx, hx⟩⟩
  exact hperm.length_eq

theorem length_filter_not_add (p : Nat × List Cell → Bool) :
    ∀ l : List (Nat × List Cell),
      (l.filter (fun a => !(p a))).length + (l.filter p).length = l.length
  | [] => rfl
  | a :: l => by
    have ih := length_filter_not_add p l
    cases hpa : p a <;> simp [List.filter_cons, hpa] <;> omega

/-! Characterizations of the clean and split stages. -/

theorem dropCols_some {df : DataFrame} {ns : List String} {d : DataFrame}
    (h : dropCols df ns = some d) :
    d.cols = df.cols.filter (fun c => !(ns.contains c.name)) ∧
    d.rows = df.rows.map (fun r => (r.1, keepCells df.cols ns r.2)) := by
  unfold dropCols at h
  split at h
  case isTrue => simp only [Option.some.injEq] at h; exact ⟨by rw [← h], by rw [← h]⟩
  case isFalse => cases h

theorem dropCols_some_index {df : DataFrame} {ns : List String} {d : DataFrame}
    (h : dropCols df ns = some d) : d.index = df.index := by
  obtain ⟨-, hrows⟩ := dropCols_some h
  unfold DataFrame.index
  rw [hrows, List.map_map]
  rfl

theorem uniformList_length (lo hi : Int) :
    ∀ (n : Nat) (rng : Rng), (uniformList lo hi n rng).1.length = n
  | 0, _ => rfl
  | n + 1, rng => by
    simp only [uniformList, List.length_cons, uniformList_length lo hi n]

theorem index_length (df : DataFrame) : df.index.length = df.rows.length :=
  List.length_map _ _

theorem corruptStage_some {df : DataFrame} {rng : Rng} {so : List String → List String}
    {q : DataFrame × Rng} (h : corruptStage df rng so = some q) :
    ∃ nanIdx rng1,
      sampleWoR (df.rows.length / 8) df.index rng = some (nanIdx, rng1) ∧
      corruptLoop (so (float64Columns df)) nanIdx df rng1 = some q := by
  unfold corruptStage at h
  cases hs : sampleWoR (df.rows.length / 8) df.index rng with
  | none => rw [hs] at h; cases h
  | some p =>
    obtain ⟨nanIdx, rng1⟩ := p
    rw [hs] at h
    exact ⟨nanIdx, rng1, rfl, h⟩

theorem splitStage_some {df : DataFrame} {rng : Rng} {dfTrain dfTest : DataFrame}
    {rng2 : Rng} (h : (splitStage df rng).2 = some (dfTrain, dfTest, rng2)) :
    ∃ (greatRows additional : List Nat) (rng1 rngA : Rng),
      sampleWoR 5 ((nlargestIdx df 15 targetCol).drop 5) rng = some (greatRows, rng1) ∧
      sampleWoR (100 - (nlargestIdx df 1 targetCol ++ greatRows).length)
        (List.insertionSort (fun a b => a ≤ b)
          (df.index.filter (fun i => !((nlargestIdx df 1 targetCol ++ greatRows).contains i))))
        rng1 = some (additional, rngA) ∧
      locRows df (nlargestIdx df 1 targetCol ++ greatRows ++ additional) = some dfTest ∧
      dropRowsChecked df (nlargestIdx df 1 targetCol ++ greatRows ++ additional)
        = some dfTrain ∧
      (splitStage df rng).1.map Prod.fst
        = ["solution.csv", "test.csv", "sample_submission.csv"] ∧
      ∀ p ∈ (splitStage df rng).1, p.2.index = dfTest.index := by
  rcases hsp : splitStage df rng with ⟨files, res⟩
  rw [hsp] at h
  replace h : res = some (dfTrain, dfTest, rng2) := h
  subst h
  have hsp2 := hsp
  simp only [splitStage] at hsp
  split at hsp
  case isTrue htc =>
    split at hsp
    case h_1 => simp [Prod.ext_iff] at hsp
    case h_2 greatRows rng1 hg =>
      split at hsp
      case h_1 => simp [Prod.ext_iff] at hsp
      case h_2 additional rngA ha =>
        split at hsp
        case h_1 => simp [Prod.ext_iff] at hsp
        case h_2 dfTest' hloc =>
          split at hsp
          case h_1 => simp [Prod.ext_iff] at hsp
          case h_2 sol0 hsol =>
            split at hsp
            case h_1 => simp [Prod.ext_iff] at hsp
            case h_2 testDf htestDf =>
              split at hsp
              case h_1 => simp [Prod.ext_iff] at hsp
              case h_2 sub0 hsub0 =>
                split at hsp
                case h_1 => simp [Prod.ext_iff] at hsp
                case h_2 dfTrain' hdropped =>
                  simp only [Prod.mk.injEq, Option.some.injEq] at hsp
                  obtain ⟨hfiles, hTr, hTe, hrng⟩ := hsp
                  refine ⟨greatRows, additional, rng1, rngA, hg, ?_, ?_, ?_, ?_, ?_⟩
                  · exact ha
                  · rw [← hTe]; exact hloc
                  · rw [← hTr]; exact hdropped
                  · rw [← hfiles]
                    rfl
                  · rw [← hfiles]
                    intro p hp
                    have hTe'idx : dfTest.index = dfTest'.index := by rw [hTe]
                    rcases List.mem_cons.mp hp with hp1 | hp'
                    · rw [hp1]
                      simp only
                      rw [addConstCol_index, projectCols_some_index hsol, hTe'idx]
                    rcases List.mem_cons.mp hp' with hp2 | hp''
                    · rw [hp2]
                      simp only
                      rw [dropCols_some_index htestDf, hTe'idx]
                    rcases List.mem_cons.mp hp'' with hp3 | hp0
                    · rw [hp3]
                      simp only
                      rw [addNumCol_index, projectCols_some_index hsub0, hTe'idx]
                      rw [uniformList_length, ← index_length, projectCols_some_index hsub0,
                        index_length]
                    · cases hp0
  case isFalse => simp [Prod.ext_iff] at hsp

/-! Facts about the held-out index selection. -/

theorem filterMap_fst_sublist {g : (Nat × List Cell) → Option (Nat × Int)}
    (hg : ∀ r y, g r = some y → y.1 = r.1) :
    ∀ rows : List (Nat × List Cell),
      List.Sublist ((rows.filterMap g).map Prod.fst) (rows.map Prod.fst)
  | [] => List.Sublist.refl _
  | r :: rows => by
    rw [List.filterMap_cons]
    cases hgr : g r with
    | none =>
      rw [List.map_cons]
      exact List.Sublist.cons _ (filterMap_fst_sublist hg rows)
    | some y =>
      rw [List.map_cons, List.map_cons, hg r y hgr]
      exact List.Sublist.cons₂ _ (filterMap_fst_sublist hg rows)

theorem targetPairs_fst_sublist (df : DataFrame) (t : String) :
    List.Sublist ((targetPairs df t).map Prod.fst) df.index := by
  unfold targetPairs DataFrame.index
  refine filterMap_fst_sublist ?_ df.rows
  intro r y hy
  revert hy
  cases getCellAux df.cols r.2 t with
  | none => intro hy; cases hy
  | some c =>
    cases c with
    | num x => intro hy; simp only [Option.some.injEq] at hy; rw [← hy]
    | str s => intro hy; cases hy
    | nan => intro hy; cases hy

theorem nlargestIdx_eq_take (df : DataFrame) (k : Nat) (t : String) :
    nlargestIdx df k t
      = ((List.insertionSort descR (targetPairs df t)).map Prod.fst).take k := by
  unfold nlargestIdx
  rw [List.map_take]

theorem sortFst_nodup {df : DataFrame} (t : String) (hidx : df.index.Nodup) :
    ((List.insertionSort descR (targetPairs df t)).map Prod.fst).Nodup := by
  have hperm : List.Perm ((List.insertionSort descR (targetPairs df t)).map Prod.fst)
      ((targetPairs df t).map Prod.fst) :=
    (List.perm_insertionSort descR (targetPairs df t)).map Prod.fst
  rw [List.Perm.nodup_iff hperm]
  exact List.Nodup.sublist (targetPairs_fst_sublist df t) hidx

theorem sortFst_subset_index {df : DataFrame} (t : String) :
    ∀ i ∈ (List.insertionSort descR (targetPairs df t)).map Prod.fst, i ∈ df.index := by
  intro i hi
  have hperm : List.Perm ((List.insertionSort descR (targetPairs df t)).map Prod.fst)
      ((targetPairs df t).map Prod.fst) :=
    (List.perm_insertionSort descR (targetPairs df t)).map Prod.fst
  exact (targetPairs_fst_sublist df t).subset ((hperm.mem_iff).mp hi)

theorem take_disjoint_drop {L : List Nat} (n : Nat) (h : L.Nodup) :
    List.Disjoint (L.take n) (L.drop n) := by
  have hnd2 : (L.take n ++ L.drop n).Nodup := by
    rw [List.take_append_drop]
    exact h
  exact (List.nodup_append.mp hnd2).2.2

theorem split_combined_facts {df : DataFrame} {rng : Rng}
    {greatRows additional : List Nat} {rng1 rngA : Rng}
    (hidx : df.index.Nodup)
    (hg : sampleWoR 5 ((nlargestIdx df 15 targetCol).drop 5) rng = some (greatRows, rng1))
    (ha : sampleWoR (100 - (nlargestIdx df 1 targetCol ++ greatRows).length)
        (List.insertionSort (fun a b => a ≤ b)
          (df.index.filter (fun i => !((nlargestIdx df 1 targetCol ++ greatRows).contains i))))
        rng1 = some (additional, rngA)) :
    (nlargestIdx df 1 targetCol ++ greatRows ++ additional).Nodup ∧
    (∀ i ∈ nlargestIdx df 1 targetCol ++ greatRows ++ additional, i ∈ df.index) ∧
    (nlargestIdx df 1 targetCol ++ greatRows ++ additional).length = 100 := by
  obtain ⟨hglen, hgsub, hgnd⟩ := sampleWoR_some_facts _ _ _ _ _ hg
  obtain ⟨halen, hasub, hand⟩ := sampleWoR_some_facts _ _ _ _ _ ha
  have hLnd := sortFst_nodup targetCol hidx
  have hLsub := @sortFst_subset_index df targetCol
  set L := (List.insertionSort descR (targetPairs df targetCol)).map Prod.fst with hLdef
  rw [nlargestIdx_eq_take, ← hLdef] at hg hgsub hgnd
  have hpool_len : ¬ (((L.take 15).drop 5).length < 5) := by
    intro hlt
    rw [sampleWoR_none_of_lt _ _ _ hlt] at hg
    cases hg
  have hL10 : 10 ≤ L.length := by
    rw [List.length_drop, List.length_take] at hpool_len
    omega
  have hbest_eq : nlargestIdx df 1 targetCol = L.take 1 := by
    rw [nlargestIdx_eq_take, ← hLdef]
  have hbest1 : (nlargestIdx df 1 targetCol).length = 1 := by
    rw [hbest_eq, List.length_take]
    omega
  have hpool_nd : ((L.take 15).drop 5).Nodup :=
    List.Nodup.sublist ((List.drop_sublist _ _).trans (List.take_sublist _ _)) hLnd
  have hgreat_nd : greatRows.Nodup := hgnd hpool_nd
  have hgreat_drop : ∀ x ∈ greatRows, x ∈ L.drop 5 := by
    intro x hx
    have := hgsub x hx
    rw [← List.take_drop 5 10 L] at this
    exact List.take_subset _ _ this
  have hbest_nd : (nlargestIdx df 1 targetCol).Nodup := by
    rw [hbest_eq]
    exact List.Nodup.sublist (List.take_sublist _ _) hLnd
  have h15 : (L.take 5).take 1 = L.take 1 := by
    rw [List.take_take]
    norm_num
  have hbest_take5 : ∀ x ∈ nlargestIdx df 1 targetCol, x ∈ L.take 5 := by
    intro x hx
    rw [hbest_eq, ← h15] at hx
    exact List.take_subset _ _ hx
  have hdisj55 := @take_disjoint_drop L 5 hLnd
  have hbg_disj : List.Disjoint (nlargestIdx df 1 targetCol) greatRows := by
    intro x hx hx'
    exact hdisj55 (hbest_take5 x hx) (hgreat_drop x hx')
  have hbg_nd : (nlargestIdx df 1 targetCol ++ greatRows).Nodup :=
    List.nodup_append.mpr ⟨hbest_nd, hgreat_nd, hbg_disj⟩
  have hrem_nd : (List.insertionSort (fun a b => a ≤ b)
      (df.index.filter (fun i => !((nlargestIdx df 1 targetCol ++ greatRows).contains i)))).Nodup := by
    rw [List.Perm.nodup_iff (List.perm_insertionSort _ _)]
    exact List.Nodup.filter _ hidx
  have hadd_nd : additional.Nodup := hand hrem_nd
  have hadd_mem : ∀ x ∈ additional,
      x ∈ df.index ∧ x ∉ nlargestIdx df 1 targetCol ++ greatRows := by
    intro x hx
    have hx2 := hasub x hx
    rw [List.Perm.mem_iff (List.perm_insertionSort _ _)] at hx2
    rw [List.mem_filter] at hx2
    refine ⟨hx2.1, ?_⟩
    have := hx2.2
    rw [contains_eq_decide_mem] at this
    simpa using this
  have hbg_sub : ∀ i ∈ nlargestIdx df 1 targetCol ++ greatRows, i ∈ df.index := by
    intro i hi
    rcases List.mem_append.mp hi with h1 | h2
    · exact hLsub i (List.take_subset _ _ (hbest_eq ▸ h1))
    · exact hLsub i (List.drop_subset _ _ (hgreat_drop i h2))
  refine ⟨?_, ?_, ?_⟩
  · refine List.nodup_append.mpr ⟨hbg_nd, hadd_nd, ?_⟩
    intro x hx hx'
    exact (hadd_mem x hx').2 hx
  · intro i hi
    rcases List.mem_append.mp hi with h1 | h2
    · exact hbg_sub i h1
    · exact (hadd_mem i h2).1
  · rw [List.length_append, List.length_append, hbest1, hglen, halen,
      List.length_append, hbest1, hglen]

theorem split_tables_facts {df : DataFrame} {rng : Rng} {dfTrain dfTest : DataFrame}
    {rng2 : Rng}
    (hidx : df.index.Nodup)
    (h : (splitStage df rng).2 = some (dfTrain, dfTest, rng2)) :
    ∃ combined : List Nat,
      combined.Nodup ∧
      combined.length = 100 ∧
      (∀ i ∈ combined, i ∈ df.index) ∧
      dfTest.cols = df.cols ∧
      dfTest.index = combined ∧
      (∀ r ∈ dfTest.rows, r ∈ df.rows) ∧
      dfTrain.cols = df.cols ∧
      dfTrain.rows = df.rows.filter (fun r => !(combined.contains r.1)) ∧
      dfTest.rows.length = 100 ∧
      dfTrain.rows.length = df.rows.length - 100 := by
  obtain ⟨great, addl, rng1, rngA, hg, ha, hloc, hdropped, -, -⟩ := splitStage_some h
  obtain ⟨hnd, hsub, hlen⟩ := split_combined_facts hidx hg ha
  obtain ⟨hTcols, hTrows, hTall⟩ := locRows_some hloc
  obtain ⟨hRcols, hRrows⟩ := dropRowsChecked_some hdropped
  have hTidx : dfTest.index = nlargestIdx df 1 targetCol ++ great ++ addl := by
    unfold DataFrame.index
    rw [hTrows]
    exact filterMap_find?_index _ hTall
  have hTlen : dfTest.rows.length = 100 := by
    rw [← index_length, hTidx, hlen]
  have hfilter_len : (df.rows.filter
      (fun r => ((nlargestIdx df 1 targetCol ++ great ++ addl).contains r.1))).length
      = 100 := by
    have h1 : df.index.filter
        (fun i => ((nlargestIdx df 1 targetCol ++ great ++ addl).contains i))
        = (df.rows.filter
          (fun r => ((nlargestIdx df 1 targetCol ++ great ++ addl).contains r.1))).map
            Prod.fst := by
      unfold DataFrame.index
      rw [List.filter_map]
      rfl
    have h2 : (df.index.filter
        (fun i => ((nlargestIdx df 1 targetCol ++ great ++ addl).contains i))).length
        = 100 := by
      rw [List.filter_congr (fun x _ => contains_eq_decide_mem _ x)]
      rw [length_filter_mem hidx hnd hsub, hlen]
    rw [h1, List.length_map] at h2
    exact h2
  refine ⟨nlargestIdx df 1 targetCol ++ great ++ addl, hnd, hlen, hsub, hTcols, hTidx,
    ?_, hRcols, hRrows, hTlen, ?_⟩
  · intro r hr
    rw [hTrows] at hr
    exact filterMap_find?_mem r hr
  · rw [hRrows]
    have := length_filter_not_add
      (fun r => ((nlargestIdx df 1 targetCol ++ great ++ addl).contains r.1)) df.rows
    omega

/-! Claim theorems about the Splitter. -/

theorem idcell_inj : Function.Injective (fun i : Nat => some (Cell.num (Int.ofNat i))) := by
  intro a b hab
  simp only [Option.some.injEq, Cell.num.injEq] at hab
  exact Int.ofNat.inj hab

theorem idColVals_eq {df d : DataFrame}
    (hid : ∀ r ∈ df.rows, getCellAux df.cols r.2 "id" = some (Cell.num (Int.ofNat r.1)))
    (hcols : d.cols = df.cols) (hsub : ∀ r ∈ d.rows, r ∈ df.rows) :
    idColVals d = d.index.map (fun i => some (Cell.num (Int.ofNat i))) := by
  unfold idColVals DataFrame.index
  rw [List.map_map]
  apply List.map_congr_left
  intro r hr
  simp only [Function.comp_apply]
  rw [hcols]
  exact hid r (hsub r hr)

/-- C5: when the Splitter completes on a table of at least 100 rows (the
cleaned table carrying its `id` column), the training and held-out row
counts sum to the input row count, the `id` column values are
duplicate-free on each side, and the two `id` value sets are disjoint. -/
theorem split_invariants (df : DataFrame) (rng : Rng) (dfTrain dfTest : DataFrame)
    (rng2 : Rng)
    (hidx : df.index.Nodup)
    (hid : ∀ r ∈ df.rows, getCellAux df.cols r.2 "id" = some (Cell.num (Int.ofNat r.1)))
    (h100 : 100 ≤ df.rows.length)
    (h : (splitStage df rng).2 = some (dfTrain, dfTest, rng2)) :
    dfTrain.rows.length + dfTest.rows.length = df.rows.length ∧
    (idColVals dfTrain).Nodup ∧
    (idColVals dfTest).Nodup ∧
    ∀ v ∈ idColVals dfTrain, v ∉ idColVals dfTest := by
  obtain ⟨combined, hcnd, hclen, hcsub, hTcols, hTidx, hTsub, hRcols, hRrows, hTlen,
    hRlen⟩ := split_tables_facts hidx h
  have hRsub : ∀ r ∈ dfTrain.rows, r ∈ df.rows := by
    intro r hr
    rw [hRrows] at hr
    exact List.mem_of_mem_filter hr
  have hRidx_nd : dfTrain.index.Nodup := by
    unfold DataFrame.index
    rw [hRrows]
    exact List.Nodup.sublist ((List.filter_sublist _).map _) hidx
  have hTidx_nd : dfTest.index.Nodup := by
    rw [hTidx]
    exact hcnd
  have hRT_idx_disj : ∀ i ∈ dfTrain.index, i ∉ dfTest.index := by
    intro i hi
    rw [hTidx]
    unfold DataFrame.index at hi
    rw [hRrows] at hi
    obtain ⟨r, hr, hri⟩ := List.mem_map.mp hi
    have := (List.mem_filter.mp hr).2
    rw [contains_eq_decide_mem] at this
    simp only [Bool.not_eq_eq_eq_not, Bool.not_true, decide_eq_false_iff_not] at this
    rw [← hri]
    exact this
  have hTvals := idColVals_eq hid hTcols hTsub
  have hRvals := idColVals_eq hid hRcols hRsub
  refine ⟨by omega, ?_, ?_, ?_⟩
  · rw [hRvals]
    exact hRidx_nd.map idcell_inj
  · rw [hTvals]
    exact hTidx_nd.map idcell_inj
  · intro v hvR hvT
    rw [hRvals] at hvR
    rw [hTvals] at hvT
    obtain ⟨i, hiR, hvi⟩ := List.mem_map.mp hvR
    obtain ⟨j, hjT, hvj⟩ := List.mem_map.mp hvT
    have hij : i = j := idcell_inj (hvi.trans hvj.symm)
    exact hRT_idx_disj i hiR (hij ▸ hjT)

/-! Claim theorems spanning the split and the corruption. -/

theorem corruptStage_structure {df : DataFrame} {rng : Rng}
    {so : List String → List String} {q : DataFrame × Rng}
    (hidx : df.index.Nodup) (h : corruptStage df rng so = some q) :
    q.1.index = df.index ∧ q.1.cols = df.cols := by
  obtain ⟨nanIdx, rng1, hs, hloop⟩ := corruptStage_some h
  obtain ⟨-, -, hnd⟩ := sampleWoR_some_facts _ _ _ _ _ hs
  obtain ⟨hcols, plan, -, hrows⟩ := corruptLoop_plan _ _ _ _ _ (hnd hidx) hloop
  refine ⟨?_, hcols⟩
  unfold DataFrame.index
  rw [hrows, List.map_map]
  apply List.map_congr_left
  intro r hr
  simp only [Function.comp_apply]
  by_cases hri : r.1 ∈ nanIdx
  · rw [if_pos hri]
  · rw [if_neg hri]

/-- C10: two rows that both survive into the final training table keep the
relative order they had in the cleaned table: the written training table's
index is a sublist of the cleaned table's index (dropping the held-out rows
and corrupting cells never reorders rows). -/
theorem train_order_preserved (df : DataFrame) (rng rng2 : Rng)
    (so : List String → List String) (dfTrain dfTest : DataFrame) (q : DataFrame × Rng)
    (hidx : df.index.Nodup)
    (hsplit : (splitStage df rng).2 = some (dfTrain, dfTest, rng2))
    (hcor : corruptStage dfTrain rng2 so = some q) :
    List.Sublist q.1.index df.index := by
  obtain ⟨combined, -, -, -, -, -, -, -, hRrows, -, -⟩ := split_tables_facts hidx hsplit
  have hTrIdx : List.Sublist dfTrain.index df.index := by
    unfold DataFrame.index
    rw [hRrows]
    exact (List.filter_sublist _).map _
  have hTrNd : dfTrain.index.Nodup := List.Nodup.sublist hTrIdx hidx
  rw [(corruptStage_structure hTrNd hcor).1]
  exact hTrIdx

theorem length_filter_fst_mem {rows : List (Nat × List Cell)} {S : List Nat}
    (hnd : (rows.map Prod.fst).Nodup) (hS : S.Nodup)
    (hsub : ∀ x ∈ S, x ∈ rows.map Prod.fst) :
    (rows.filter (fun r => decide (r.1 ∈ S))).length = S.length := by
  have h1 : (rows.map Prod.fst).filter (fun i => decide (i ∈ S))
      = (rows.filter (fun r => decide (r.1 ∈ S))).map Prod.fst := by
    rw [List.filter_map]
    rfl
  have h2 := length_filter_mem hnd hS hsub
  rw [h1, List.length_map] at h2
  exact h2

/-- C6: on a successful run over a clean (marker-free, well-aligned) table
of `N ≥ 100` rows, exactly `(N − 100) / 8` rows of the corrupted training
table contain at least one missing marker: every selected row receives one
and unselected rows receive none. -/
theorem corrupt_row_count (df : DataFrame) (rng rng2 : Rng)
    (so : List String → List String) (dfTrain dfTest : DataFrame) (q : DataFrame × Rng)
    (hso : ∀ l, List.Perm (so l) l)
    (hidx : df.index.Nodup)
    (halign : ∀ r ∈ df.rows, r.2.length = df.cols.length)
    (hclean : ∀ r ∈ df.rows, Cell.nan ∉ r.2)
    (h100 : 100 ≤ df.rows.length)
    (hsplit : (splitStage df rng).2 = some (dfTrain, dfTest, rng2))
    (hcor : corruptStage dfTrain rng2 so = some q) :
    (q.1.rows.filter (fun r => decide (Cell.nan ∈ r.2))).length
      = (df.rows.length - 100) / 8 := by
  obtain ⟨combined, -, -, -, -, -, -, hRcols, hRrows, -, hRlen⟩ :=
    split_tables_facts hidx hsplit
  have hRsub : ∀ r ∈ dfTrain.rows, r ∈ df.rows := by
    intro r hr
    rw [hRrows] at hr
    exact List.mem_of_mem_filter hr
  have hTrNd : dfTrain.index.Nodup := by
    unfold DataFrame.index
    rw [hRrows]
    exact List.Nodup.sublist ((List.filter_sublist _).map _) hidx
  obtain ⟨nanIdx, rng1, hs, hloop⟩ := corruptStage_some hcor
  obtain ⟨hslen, hssub, hsnd⟩ := sampleWoR_some_facts _ _ _ _ _ hs
  obtain ⟨-, plan, hplan, hrowsF⟩ := corruptLoop_plan _ _ _ _ _ (hsnd hTrNd) hloop
  have hmemf64 : ∀ n ∈ so (float64Columns dfTrain), ∃ c ∈ dfTrain.cols, c.name = n := by
    intro n hn
    have := (hso (float64Columns dfTrain)).mem_iff.mp hn
    unfold float64Columns at this
    obtain ⟨c, hcf, hcn⟩ := List.mem_map.mp this
    exact ⟨c, List.mem_of_mem_filter hcf, hcn⟩
  have hpointwise : ∀ r ∈ dfTrain.rows,
      ((fun r => decide (Cell.nan ∈ r.2)) ∘
        (fun r => if r.1 ∈ nanIdx
          then (r.1, setNanCells dfTrain.cols (plan r.1) r.2) else r)) r
      = decide (r.1 ∈ nanIdx) := by
    intro r hr
    simp only [Function.comp_apply]
    by_cases hri : r.1 ∈ nanIdx
    · rw [if_pos hri]
      obtain ⟨hne, hsubf⟩ := hplan r.1 hri
      obtain ⟨n0, hn0⟩ := List.exists_mem_of_ne_nil _ hne
      obtain ⟨c, hc, hcn⟩ := hmemf64 n0 (hsubf n0 hn0)
      have hhit : Cell.nan ∈ setNanCells dfTrain.cols (plan r.1) r.2 := by
        refine nan_mem_setNanCells _ _ _ ?_ ⟨c, hc, by rw [hcn]; exact hn0⟩
        rw [hRcols]
        exact halign r (hRsub r hr)
      rw [decide_eq_true hhit, decide_eq_true hri]
    · rw [if_neg hri]
      have hnonan : Cell.nan ∉ r.2 := hclean r (hRsub r hr)
      rw [decide_eq_false hnonan, decide_eq_false hri]
  rw [hrowsF, List.filter_map, List.length_map, List.filter_congr hpointwise,
    length_filter_fst_mem hTrNd (hsnd hTrNd) hssub, hslen, hRlen]

/-- C1 (amended): a run of the Corruptor only overwrites cells of the
selected rows in float64-dtype columns.  Every column whose declared dtype
is not float64 — in particular the int64 `id` column — is untouched in
every row, and unselected rows are unchanged entirely.  (The original
claim further asserted the target column is protected; the target column
has dtype float64, so it is itself eligible, and the counterexample shows
a run that blanks a target cell.) -/
theorem corruptor_frame (df : DataFrame) (rng : Rng) (so : List String → List String)
    (q : DataFrame × Rng)
    (hso : ∀ l, List.Perm (so l) l)
    (hnames : df.colNames.Nodup)
    (hidx : df.index.Nodup)
    (h : corruptStage df rng so = some q) :
    q.1.cols = df.cols ∧ q.1.index = df.index ∧
    (∀ c ∈ df.cols, c.dtype ≠ Dtype.float64 →
      ∀ i, q.1.getCell i c.name = df.getCell i c.name) ∧
    ∃ nanIdx rng1,
      sampleWoR (df.rows.length / 8) df.index rng = some (nanIdx, rng1) ∧
      ∀ r ∈ df.rows, r.1 ∉ nanIdx → r ∈ q.1.rows := by
  obtain ⟨hqidx, hqcols⟩ := corruptStage_structure hidx h
  obtain ⟨nanIdx, rng1, hs, hloop⟩ := corruptStage_some h
  obtain ⟨-, -, hsnd⟩ := sampleWoR_some_facts _ _ _ _ _ hs
  obtain ⟨-, plan, hplan, hrowsF⟩ := corruptLoop_plan _ _ _ _ _ (hsnd hidx) hloop
  have hf : ∀ r : Nat × List Cell, ((fun r => if r.1 ∈ nanIdx
      then (r.1, setNanCells df.cols (plan r.1) r.2) else r) r).1 = r.1 := by
    intro r
    by_cases hri : r.1 ∈ nanIdx
    · simp only [if_pos hri]
    · simp only [if_neg hri]
  refine ⟨hqcols, hqidx, ?_, nanIdx, rng1, hs, ?_⟩
  · intro c hc hdt i
    have hnot : c.name ∉ so (float64Columns df) := by
      intro hmem
      have hmem2 := (hso (float64Columns df)).mem_iff.mp hmem
      unfold float64Columns at hmem2
      obtain ⟨c', hc'f, hc'n⟩ := List.mem_map.mp hmem2
      have hc'mem := List.mem_of_mem_filter hc'f
      have hc'dt : c'.dtype = Dtype.float64 := by
        have := (List.mem_filter.mp hc'f).2
        simpa using this
      have hcc' : c' = c := by
        refine List.inj_on_of_nodup_map ?_ hc'mem hc hc'n
        exact hnames
      rw [hcc'] at hc'dt
      exact hdt hc'dt
    unfold DataFrame.getCell
    rw [hqcols, hrowsF, find?_fst_map hf i]
    cases hfind : df.rows.find? (fun r => r.1 == i) with
    | none => simp
    | some r0 =>
      simp only [Option.map_some']
      by_cases hri : r0.1 ∈ nanIdx
      · rw [if_pos hri]
        exact getCellAux_setNanCells_not_mem _ _ _ _
          (fun hmem => hnot ((hplan r0.1 hri).2 c.name hmem))
      · rw [if_neg hri]
  · intro r hr hnotsel
    rw [hrowsF]
    have : (fun r => if r.1 ∈ nanIdx
        then (r.1, setNanCells df.cols (plan r.1) r.2) else r) r = r := by
      simp only [if_neg hnotsel]
    rw [← this]
    exact List.mem_map_of_mem _ hr

/-! The uniquely-best row claim. -/

theorem nlargest_one_of_unique_max {df : DataFrame} {b : Nat} {m : Int}
    (hmem : (b, m) ∈ targetPairs df targetCol)
    (hmax : ∀ p ∈ targetPairs df targetCol, p.1 ≠ b → p.2 < m) :
    nlargestIdx df 1 targetCol = [b] := by
  have hperm := List.perm_insertionSort descR (targetPairs df targetCol)
  have hsorted := List.sorted_insertionSort descR (targetPairs df targetCol)
  have hmem' : (b, m) ∈ List.insertionSort descR (targetPairs df targetCol) :=
    hperm.mem_iff.mpr hmem
  unfold nlargestIdx
  cases hs : List.insertionSort descR (targetPairs df targetCol) with
  | nil => rw [hs] at hmem'; cases hmem'
  | cons hd tl =>
    rw [hs] at hsorted hmem' hperm
    have hhd_mem : hd ∈ targetPairs df targetCol :=
      hperm.mem_iff.mp (List.mem_cons_self hd tl)
    have hhd1 : hd.1 = b := by
      by_contra hne
      have hlt : hd.2 < m := hmax hd hhd_mem hne
      rcases List.mem_cons.mp hmem' with heq | htl
      · exact hne (by rw [← heq])
      · have hle : descR hd (b, m) := List.rel_of_sorted_cons hsorted _ htl
        unfold descR at hle
        simp only at hle
        omega
    simp [hhd1]

/-- C7: when a single row attains the maximum target value, a completed
split always places that row in the held-out table and in every written
held-out artifact (`solution.csv`, `test.csv`, `sample_submission.csv`),
never in the training table; the corrupted training table written to
`train.csv` does not contain it either. -/
theorem best_row_heldout (df : DataFrame) (rng rng2 : Rng) (b : Nat) (m : Int)
    (dfTrain dfTest : DataFrame)
    (hidx : df.index.Nodup)
    (hmem : (b, m) ∈ targetPairs df targetCol)
    (hmax : ∀ p ∈ targetPairs df targetCol, p.1 ≠ b → p.2 < m)
    (hsplit : (splitStage df rng).2 = some (dfTrain, dfTest, rng2)) :
    b ∈ dfTest.index ∧
    (∀ p ∈ (splitStage df rng).1, b ∈ p.2.index) ∧
    b ∉ dfTrain.index ∧
    ∀ (so : List String → List String) (rngZ : Rng) (q : DataFrame × Rng),
      corruptStage dfTrain rngZ so = some q → b ∉ q.1.index := by
  have hbest := nlargest_one_of_unique_max hmem hmax
  obtain ⟨great, addl, rng1, rngA, hg, ha, hloc, hdropped, hmap, hfidx⟩ :=
    splitStage_some hsplit
  obtain ⟨hTcols, hTrows, hTall⟩ := locRows_some hloc
  obtain ⟨hRcols, hRrows⟩ := dropRowsChecked_some hdropped
  have hTidx : dfTest.index = nlargestIdx df 1 targetCol ++ great ++ addl := by
    unfold DataFrame.index
    rw [hTrows]
    exact filterMap_find?_index _ hTall
  have hbc : b ∈ nlargestIdx df 1 targetCol ++ great ++ addl := by
    rw [hbest]
    simp
  have hbT : b ∈ dfTest.index := by
    rw [hTidx]
    exact hbc
  have hbR : b ∉ dfTrain.index := by
    intro hb
    unfold DataFrame.index at hb
    rw [hRrows] at hb
    obtain ⟨r, hr, hrb⟩ := List.mem_map.mp hb
    have := (List.mem_filter.mp hr).2
    rw [contains_eq_decide_mem] at this
    simp only [Bool.not_eq_eq_eq_not, Bool.not_true, decide_eq_false_iff_not] at this
    rw [hrb] at this
    exact this hbc
  have hRnd : dfTrain.index.Nodup := by
    unfold DataFrame.index
    rw [hRrows]
    exact List.Nodup.sublist ((List.filter_sublist _).map _) hidx
  refine ⟨hbT, ?_, hbR, ?_⟩
  · intro p hp
    rw [hfidx p hp]
    exact hbT
  · intro so rngZ q hq
    rw [(corruptStage_structure hRnd hq).1]
    exact hbR

/-! Claim theorems about the per-row draw and the whole pipeline. -/

/-- C3 (amended): the per-row count of cells to blank is `B + 1` where `B`
is a binomial draw whose number-of-trials parameter is the total column
count of the training table (float features, non-float features, the
target and the `id` column alike), not the eligible-column count: the
count always lies in `{1, ..., total + 1}` and every value of that range
is attained by some random stream. -/
theorem num_nans_trials (df : DataFrame) (rng : Rng) :
    (numNansOf df rng).1 = (binomialDraw df.cols.length rng).1 + 1 ∧
    1 ≤ (numNansOf df rng).1 ∧
    (numNansOf df rng).1 ≤ df.cols.length + 1 ∧
    ∀ k, 1 ≤ k → k ≤ df.cols.length + 1 → ∃ rngW : Rng, (numNansOf df rngW).1 = k := by
  refine ⟨rfl, numNansOf_pos df rng, ?_, ?_⟩
  · have : (binomialDraw df.cols.length rng).1 ≤ df.cols.length := by
      simp [binomialDraw]
    simp only [numNansOf]
    omega
  · intro k hk1 hk2
    refine ⟨[k - 1], ?_⟩
    simp only [numNansOf, binomialDraw, rngNext]
    omega

/-- C4 (amended): when the drawn per-row count exceeds the number of
eligible columns, the per-row corruption step raises (the column sampling
fails); there is no clipping and the row is not corrupted. -/
theorem oversized_draw_fails (f64 : List String) (df : DataFrame) (idx : Nat) (rng : Rng)
    (h : f64.length < (numNansOf df rng).1) :
    corruptRow f64 df idx rng = none := by
  unfold corruptRow
  rw [sampleWoR_none_of_lt _ _ _ h]

/-- C9 (amended): the pipeline is a deterministic function of the input
table, the seeded random stream and the iteration order of the Python set
of float64 column names; when all three coincide, two executions produce
identical outputs.  (The set iteration order is not fixed by the numpy
seed, and the counterexample exhibits two executions with equal table and
stream but different set orders whose written files differ.) -/
theorem seed_determinism (raw : DataFrame) (rng : Rng)
    (so1 so2 : List String → List String) (h : ∀ l, so1 l = so2 l) :
    runPipeline raw rng so1 = runPipeline raw rng so2 := by
  have hfun : so1 = so2 := funext h
  rw [hfun]

theorem corruptLoop_cols :
    ∀ (L : List Nat) (f64 : List String) (df : DataFrame) (rng : Rng)
      (q : DataFrame × Rng),
      corruptLoop f64 L df rng = some q → q.1.cols = df.cols
  | [], f64, df, rng, q, h => by
    simp only [corruptLoop, Option.some.injEq] at h
    rw [← h]
  | i :: rest, f64, df, rng, q, h => by
    rw [corruptLoop] at h
    cases hc : corruptRow f64 df i rng with
    | none => rw [hc] at h; cases h
    | some p =>
      rw [hc] at h
      obtain ⟨names, rng2, hs, hq⟩ := corruptRow_some hc
      have := corruptLoop_cols rest f64 p.1 p.2 q h
      rw [this, hq]
      exact setNan_cols df i names

theorem corruptStage_cols {df : DataFrame} {rng : Rng} {so : List String → List String}
    {q : DataFrame × Rng} (h : corruptStage df rng so = some q) : q.1.cols = df.cols := by
  obtain ⟨nanIdx, rng1, -, hloop⟩ := corruptStage_some h
  exact corruptLoop_cols _ _ _ _ _ hloop

/-- C2 (amended): on a successful run the written `train.csv` table's
columns are the cleaned table's columns followed by the synthetic `id`
column — `id` is present in `train.csv`, contrary to the claim that it is
dropped before writing. -/
theorem train_csv_columns (raw : DataFrame) (rng : Rng) (so : List String → List String)
    (dfC : DataFrame)
    (hclean : cleanStage raw = some dfC)
    (hnoid : "id" ∉ dfC.colNames)
    (hok : (runPipeline raw rng so).ok = true) :
    ∃ dfT, ("train.csv", dfT) ∈ (runPipeline raw rng so).written ∧
      dfT.cols = dfC.cols ++ [⟨"id", Dtype.int64⟩] ∧
      "id" ∈ dfT.colNames := by
  simp only [runPipeline, hclean] at hok ⊢
  rcases hsp : splitStage (addIdCol dfC) rng with ⟨files, res⟩
  rw [hsp] at hok
  simp only at hok ⊢
  cases res with
  | none => simp at hok
  | some t =>
    obtain ⟨dfTrain, dfTest, rng2⟩ := t
    simp only at hok ⊢
    have hs2 : (splitStage (addIdCol dfC) rng).2 = some (dfTrain, dfTest, rng2) := by
      rw [hsp]
    obtain ⟨great, addl, rngX, rngY, -, -, hloc, hdropped, -, -⟩ := splitStage_some hs2
    by_cases hchecks : splitChecks (addIdCol dfC).rows.length dfTrain dfTest = true
    · rw [if_pos hchecks] at hok ⊢
      cases hcor : corruptStage dfTrain rng2 so with
      | none => rw [hcor] at hok; simp at hok
      | some q =>
        obtain ⟨dfQ, rngQ⟩ := q
        simp only at hok ⊢
        refine ⟨dfQ, ?_, ?_, ?_⟩
        · simp
        · rw [show dfQ.cols = (dfQ, rngQ).1.cols from rfl, corruptStage_cols hcor,
            (dropRowsChecked_some hdropped).1, addIdCol_cols_of_not_mem dfC hnoid]
        · unfold DataFrame.colNames
          rw [show dfQ.cols = (dfQ, rngQ).1.cols from rfl, corruptStage_cols hcor,
            (dropRowsChecked_some hdropped).1, addIdCol_cols_of_not_mem dfC hnoid]
          simp
    · rw [if_neg hchecks] at hok
      simp at hok

theorem splitStage_files_order (df : DataFrame) (rng : Rng) :
    (splitStage df rng).1.map Prod.fst = [] ∨
    (splitStage df rng).1.map Prod.fst = ["solution.csv"] ∨
    (splitStage df rng).1.map Prod.fst = ["solution.csv", "test.csv"] ∨
    (splitStage df rng).1.map Prod.fst
      = ["solution.csv", "test.csv", "sample_submission.csv"] := by
  simp only [splitStage]
  repeat' split
  all_goals simp

/-- C8 (amended): the pipeline writes its files in the fixed order
`solution.csv`, `test.csv`, `sample_submission.csv`, `train.csv` and stops
at the first raised error: the written-file sequence is always a prefix of
that order, a schema (cleaning) error aborts before any file is written,
and all four files appear exactly on a successful run.  The original
all-or-nothing claim fails: a corruption failure after the split leaves
the three held-out files written without `train.csv`, as the
counterexample exhibits. -/
theorem partial_output_write_order (raw : DataFrame) (rng : Rng)
    (so : List String → List String) :
    ((runPipeline raw rng so).written.map Prod.fst = [] ∨
     (runPipeline raw rng so).written.map Prod.fst = ["solution.csv"] ∨
     (runPipeline raw rng so).written.map Prod.fst = ["solution.csv", "test.csv"] ∨
     (runPipeline raw rng so).written.map Prod.fst
       = ["solution.csv", "test.csv", "sample_submission.csv"] ∨
     (runPipeline raw rng so).written.map Prod.fst
       = ["solution.csv", "test.csv", "sample_submission.csv", "train.csv"]) ∧
    ((runPipeline raw rng so).ok = true →
      (runPipeline raw rng so).written.map Prod.fst
        = ["solution.csv", "test.csv", "sample_submission.csv", "train.csv"]) ∧
    (cleanStage raw = none → (runPipeline raw rng so).written = []) := by
  rcases hcl : cleanStage raw with - | dfC
  · simp only [runPipeline, hcl]
    simp
  · simp only [runPipeline, hcl]
    rcases hsp : splitStage (addIdCol dfC) rng with ⟨files, res⟩
    have hpre := splitStage_files_order (addIdCol dfC) rng
    rw [hsp] at hpre
    simp only at hpre
    cases res with
    | none =>
      simp only
      refine ⟨?_, ?_, ?_⟩
      · rcases hpre with h | h | h | h <;> simp [h]
      · intro h
        exact absurd h (by simp)
      · intro h
        exact absurd h (by simp)
    | some t =>
      obtain ⟨dfTrain, dfTest, rng2⟩ := t
      simp only
      have hs2 : (splitStage (addIdCol dfC) rng).2 = some (dfTrain, dfTest, rng2) := by
        rw [hsp]
      by_cases hchecks : splitChecks (addIdCol dfC).rows.length dfTrain dfTest = true
      · rw [if_pos hchecks]
        cases hcor : corruptStage dfTrain rng2 so with
        | none =>
          simp only
          refine ⟨?_, ?_, ?_⟩
          · rcases hpre with h | h | h | h <;> simp [h]
          · intro h
            exact absurd h (by simp)
          · intro h
            exact absurd h (by simp)
        | some q =>
          obtain ⟨dfQ, rngQ⟩ := q
          simp only
          obtain ⟨great, addl, rngX, rngY, -, -, -, -, hmap, -⟩ := splitStage_some hs2
          rw [hsp] at hmap
          simp only at hmap
          have hfour : (files ++ [("train.csv", dfQ)]).map Prod.fst
              = ["solution.csv", "test.csv", "sample_submission.csv", "train.csv"] := by
            rw [List.map_append, hmap]
            rfl
          refine ⟨?_, ?_, ?_⟩
          · exact Or.inr (Or.inr (Or.inr (Or.inr hfour)))
          · exact fun _ => hfour
          · intro h
            exact absurd h (by simp)
      · rw [if_neg hchecks]
        simp only
        refine ⟨?_, ?_, ?_⟩
        · rcases hpre with h | h | h | h <;> simp [h]
        · intro h
          exact absurd h (by simp)
        · intro h
          exact absurd h (by simp)

/-! Counterexamples and witnesses on the concrete tables. -/

/-- C1 counterexample: a run of the Corruptor on a training table whose
target column has dtype float64 overwrites a target cell with the missing
marker — row 94's `highUptake_mol` value 94 becomes NaN — refuting the
claim that every target cell is unchanged. -/
theorem corruptor_target_cex :
    (corruptStage trainW [0, 1, 0, 0] (fun l => l)).map (fun p => p.1.getCell 94 targetCol)
      = some (some Cell.nan)
    ∧ trainW.getCell 94 targetCol = some (Cell.num 94) := by
  constructor
  · decide
  · decide

/-- C1 witness: the frame theorem applied to the concrete corruption run
`corruptStage trainW [0,1,0,0]` with the identity set order. -/
theorem corruptor_frame_witness :
    corruptW.cols = trainW.cols ∧ corruptW.index = trainW.index ∧
    (∀ c ∈ trainW.cols, c.dtype ≠ Dtype.float64 →
      ∀ i, corruptW.getCell i c.name = trainW.getCell i c.name) ∧
    ∃ nanIdx rng1,
      sampleWoR (trainW.rows.length / 8) trainW.index [0, 1, 0, 0] = some (nanIdx, rng1) ∧
      ∀ r ∈ trainW.rows, r.1 ∉ nanIdx → r ∈ corruptW.rows :=
  corruptor_frame trainW [0, 1, 0, 0] (fun l => l) (corruptW, [])
    (fun l => List.Perm.refl l) (by decide) (by decide) (by decide)

/-- C2 counterexample: a complete concrete run writes all four files and
the written `train.csv` holds the columns `x`, `highUptake_mol` and `id` —
the synthetic `id` column is present, refuting the claim that `train.csv`
holds exactly the feature columns plus the target. -/
theorem train_csv_id_cex :
    ((runPipeline rawB [] (fun l => l)).written.map (fun p => (p.1, p.2.colNames)))
      = [("solution.csv", ["id", "highUptake_mol", "Usage"]),
         ("test.csv", ["x", "id"]),
         ("sample_submission.csv", ["id", "highUptake_mol"]),
         ("train.csv", ["x", "highUptake_mol", "id"])] := by
  decide

/-- C2 witness: the amended column theorem applied to the concrete run on
`rawB`. -/
theorem train_csv_columns_witness :
    ∃ dfT, ("train.csv", dfT) ∈ (runPipeline rawB [] (fun l => l)).written ∧
      dfT.cols = cleanW.cols ++ [⟨"id", Dtype.int64⟩] ∧
      "id" ∈ dfT.colNames :=
  train_csv_columns rawB [] (fun l => l) cleanW (by decide) (by decide) (by decide)

/-- C3 counterexample: with the training table `trainW` (two eligible
float64 columns, three columns in total) the code draws the per-row count
4, which a draw of `Binomial(2, 0.1) + 1` (at most 3) can never produce:
the number-of-trials parameter is not the eligible-column count. -/
theorem num_nans_trials_cex :
    (numNansOf trainW [3]).1 = 4 ∧ (float64Columns trainW).length + 1 = 3 := by
  constructor
  · decide
  · decide

/-- C3 witness: the amended draw theorem applied at `trainW`, with the
reachability part instantiated at count 2. -/
theorem num_nans_trials_witness :
    1 ≤ (numNansOf trainW [0]).1 ∧
    (numNansOf trainW [0]).1 ≤ trainW.cols.length + 1 ∧
    ∃ rngW : Rng, (numNansOf trainW rngW).1 = 2 :=
  ⟨(num_nans_trials trainW [0]).2.1, (num_nans_trials trainW [0]).2.2.1,
    (num_nans_trials trainW [0]).2.2.2 2 (by decide) (by decide)⟩

/-- C4 counterexample: an oversized draw (count 4 against two eligible
columns) makes the per-row corruption step raise instead of clipping and
completing. -/
theorem oversized_draw_cex :
    corruptRow (float64Columns trainW) trainW 94 [3] = none := by
  decide

/-- C4 witness: the amended failure theorem applied to a concrete
oversized draw. -/
theorem oversized_draw_fails_witness :
    corruptRow (float64Columns trainW) trainW 94 [5] = none :=
  oversized_draw_fails (float64Columns trainW) trainW 94 [5] (by decide)

/-- C5 witness: the split invariants on the concrete 108-row table. -/
theorem split_invariants_witness :
    trainW.rows.length + testW.rows.length = dfW.rows.length ∧
    (idColVals trainW).Nodup ∧
    (idColVals testW).Nodup ∧
    ∀ v ∈ idColVals trainW, v ∉ idColVals testW :=
  split_invariants dfW [] trainW testW [] (by decide) (by decide) (by decide) (by decide)

/-- C6 witness: on the concrete 108-row table, exactly
`(108 - 100) / 8 = 1` training row of the corrupted table contains a
missing marker. -/
theorem corrupt_row_count_witness :
    (corruptZ.rows.filter (fun r => decide (Cell.nan ∈ r.2))).length
      = (dfW.rows.length - 100) / 8 :=
  corrupt_row_count dfW [] [] (fun l => l) trainW testW (corruptZ, [])
    (fun l => List.Perm.refl l) (by decide) (by decide) (by decide) (by decide)
    (by decide) (by decide)

/-- C7 witness: row 107 uniquely attains the maximum target value of the
concrete table and lands in every held-out artifact and not in the
training side. -/
theorem best_row_heldout_witness :
    107 ∈ testW.index ∧
    (∀ p ∈ (splitStage dfW []).1, 107 ∈ p.2.index) ∧
    107 ∉ trainW.index ∧
    ∀ (so : List String → List String) (rngZ : Rng) (q : DataFrame × Rng),
      corruptStage trainW rngZ so = some q → 107 ∉ q.1.index :=
  best_row_heldout dfW [] [] 107 107 trainW testW (by decide) (by decide) (by decide)
    (by decide)

/-- C8 counterexample: with a random stream whose 201st value forces an
oversized binomial draw, the run writes `solution.csv`, `test.csv` and
`sample_submission.csv` and then fails in the Corruptor, so `train.csv` is
never written — a strict subset of the four outputs exists, refuting the
all-or-nothing claim. -/
theorem partial_output_cex :
    (runPipeline rawB rngB (fun l => l)).written.map Prod.fst
      = ["solution.csv", "test.csv", "sample_submission.csv"]
    ∧ (runPipeline rawB rngB (fun l => l)).ok = false := by
  constructor
  · decide
  · decide

/-- C8 witness: the prefix theorem applied to a schema-failing input — a
cleaning error leaves no file written. -/
theorem partial_output_write_order_witness :
    (runPipeline rawEmpty [] (fun l => l)).written = [] :=
  (partial_output_write_order rawEmpty [] (fun l => l)).2.2 (by decide)

/-- C9 counterexample: two executions on the same table with the same
seeded stream but different iteration orders of the float64 column-name
set write different files (the corrupted cell moves from `x` to the
target), refuting determinism in the table and seed alone. -/
theorem seed_determinism_cex :
    (runPipeline rawB [] (fun l => l)).written
      ≠ (runPipeline rawB [] (fun l => l.reverse)).written := by
  decide

/-- C9 witness: the amended determinism theorem applied at the concrete
run with both set orders equal. -/
theorem seed_determinism_witness :
    runPipeline rawB [] (fun l => l) = runPipeline rawB [] (fun l => l) :=
  seed_determinism rawB [] (fun l => l) (fun l => l) (fun _ => rfl)

/-- C10 witness: the corrupted training table of the concrete run keeps
its rows in the cleaned table's order. -/
theorem train_order_preserved_witness :
    List.Sublist corruptZ.index dfW.index :=
  train_order_preserved dfW [] [] (fun l => l) trainW testW (corruptZ, [])
    (by decide) (by decide) (by decide)
